import Mathlib

/-!
Verification of the photo-organizer core logic (index reconciliation, canonical
file naming, naming-compliance checking and the rename command) against its
natural-language specification.

The embedding below is a shallow translation of the Rust sources:
  * `src/index.rs`      — data model (`UserConfig`, `IndexEntry`, `Index`)
  * `src/collection.rs` — `get_canonical_photo_filename`, `get_photos_in_subdir`
  * `src/checks.rs`     — `check_photo_naming`
  * `src/commands.rs`   — `update` (reconciliation) and `rename`
  * `src/main.rs`       — `update_index` and `rename_photos` (line-for-line
    duplicates of the two `commands.rs` functions, except that `rename_photos`
    lacks the target-exists guard)

Modelling conventions:
  * Filesystem paths are `String`s with `/` as separator; the path helpers
    below (`fileNameOpt`, `pathParent`, `pathJoin`, `extension`) translate the
    behaviour of Rust's `Path` methods for ordinary relative file paths
    (no trailing separators, no absolute second operand of `join`).
  * The file contents on disk are modelled by oracles: a total hash oracle
    `hash : String → String` standing for `calc_photo_hash` (whose error path
    aborts `update` via `?` in the source and is not exercised by any claim),
    and a metadata oracle `read_exif_data : String → Except String PhotoMetaData`.
  * Rust's `HashSet` iteration order is not deterministic; the one place where
    it leaks into results (the loop over `photos_set.difference(&index_set)` in
    `update`) is modelled by an explicit enumeration-order argument
    constrained by `isNewOrder`.
-/

namespace PhotoOrganizer

/-! ## Path helpers (model of `std::path::Path` operations on relative paths) -/

/-- Split a character list at every occurrence of `sep` (like `str::split`). -/
def splitOnChar (sep : Char) : List Char → List (List Char)
  | [] => [[]]
  | c :: rest =>
    let r := splitOnChar sep rest
    if c = sep then [] :: r
    else
      match r with
      | [] => [[c]]
      | h :: t => (c :: h) :: t

/-- Model of `Path::file_name`: the final path component, `none` for an empty
path or a final component of `.` or `..` (modelled for paths without trailing
separators). -/
def fileNameOpt (p : String) : Option String :=
  match (splitOnChar '/' p.data).getLast? with
  | none => none
  | some comp =>
    if comp = [] ∨ comp = ['.'] ∨ comp = ['.', '.'] then none
    else some (String.mk comp)

/-- Model of `file_name().unwrap_or_default().to_string_lossy()`. -/
def fileName (p : String) : String :=
  (fileNameOpt p).getD ""

/-- Model of `Path::parent`: everything before the final component (`some ""`
for a bare file name, `none` for the empty path). -/
def pathParent (p : String) : Option String :=
  match splitOnChar '/' p.data with
  | [] => none
  | [_] => if p = "" then none else some ""
  | parts => some (String.intercalate "/" (parts.dropLast.map String.mk))

/-- Model of `Path::join` for a relative right operand; joining the empty
string on either side is the identity (the two spellings denote the same
directory entry). -/
def pathJoin (a b : String) : String :=
  if a = "" then b else if b = "" then a else a ++ "/" ++ b

/-- Model of component-wise `Path::starts_with`. -/
def pathStartsWith (pre p : String) : Bool :=
  pre == "" || p == pre || List.isPrefixOf (pre ++ "/").data p.data

/-- Model of `Path::extension`: the part of the file name after the last dot;
`none` when there is no dot or the name is a dot-file like `.bashrc`
(for `"a."` the extension is `some ""`, as in Rust). -/
def extension (p : String) : Option String :=
  match fileNameOpt p with
  | none => none
  | some name =>
    match splitOnChar '.' name.data with
    | [] => none
    | [_] => none
    | [[], _] => none
    | parts => parts.getLast?.map String.mk

/-- ASCII lower-casing, the fragment of `str::to_lowercase` relevant to file
extensions. -/
def asciiLower (s : String) : String :=
  String.mk (s.data.map (fun c => if c.isUpper then Char.ofNat (c.toNat + 32) else c))

/-! ## Data model (`src/index.rs`) -/

/-- `UserConfig` from `index.rs`. The `BTreeMap<String, Vec<String>>` of file
types is modelled as an association list kept in the map's ascending-key
iteration order. -/
structure UserConfig where
  file_naming_scheme : String
  file_types : List (String × List String)
  deriving DecidableEq

/-- `IndexEntry` from `index.rs`. -/
structure IndexEntry where
  filepath : String
  orig_filename : String
  filehash : String
  deriving DecidableEq

/-- `Index` from `index.rs`. -/
structure Index where
  user_config : UserConfig
  photos : List IndexEntry
  deriving DecidableEq

/-- `Photo` from `collection.rs`. -/
structure Photo where
  relative_path : String
  deriving DecidableEq

/-- `chrono::NaiveDateTime`, reduced to the calendar fields the naming scheme
formats. -/
structure NaiveDateTime where
  year : Nat
  month : Nat
  day : Nat
  hour : Nat
  minute : Nat
  second : Nat
  deriving DecidableEq

/-- `PhotoMetaData` from `collection.rs`. The GPS location and altitude fields
(IEEE floats, irrelevant to every property below) are omitted from the
embedding. -/
structure PhotoMetaData where
  make : Option String
  model : Option String
  timestamp_local : Option NaiveDateTime
  deriving DecidableEq

/-! ## Canonical name resolver (`src/collection.rs`) -/

/-- Replace every occurrence of `pat` by `rep`, left to right and
non-overlapping, exactly as `str::replace`. The `fuel` argument makes the
recursion structural; it is called with the length of the subject string,
which bounds the number of steps (an empty pattern, which never occurs in a
naming scheme, is treated as matching nowhere). -/
def replaceFuel (pat rep : List Char) : Nat → List Char → List Char
  | 0, s => s
  | _ + 1, [] => []
  | fuel + 1, c :: rest =>
    if pat ≠ [] ∧ List.isPrefixOf pat (c :: rest) then
      rep ++ replaceFuel pat rep fuel ((c :: rest).drop pat.length)
    else
      c :: replaceFuel pat rep fuel rest

/-- Model of `str::replace`. -/
def strReplace (s pat rep : String) : String :=
  String.mk (replaceFuel pat.data rep.data s.data.length s.data)

/-- Two zero-padded decimal digits (the value ranges produced by EXIF
timestamps keep months, days, hours, minutes and seconds below 100). -/
def num2 (n : Nat) : List Char :=
  [Char.ofNat (48 + n / 10 % 10), Char.ofNat (48 + n % 10)]

/-- Four zero-padded decimal digits (EXIF years are below 10000). -/
def num4 (n : Nat) : List Char :=
  [Char.ofNat (48 + n / 1000 % 10), Char.ofNat (48 + n / 100 % 10),
   Char.ofNat (48 + n / 10 % 10), Char.ofNat (48 + n % 10)]

/-- Model of `chrono`'s strftime formatting as used by
`timestamp_local.format(&cur_name)`, for the date/time directives a naming
scheme uses (`%Y %m %d %H %M %S` and the literal `%%`); other directives are
kept verbatim. -/
def formatChars (ts : NaiveDateTime) : List Char → List Char
  | [] => []
  | '%' :: c :: rest =>
    (if c = 'Y' then num4 ts.year
     else if c = 'm' then num2 ts.month
     else if c = 'd' then num2 ts.day
     else if c = 'H' then num2 ts.hour
     else if c = 'M' then num2 ts.minute
     else if c = 'S' then num2 ts.second
     else if c = '%' then ['%']
     else ['%', c]) ++ formatChars ts rest
  | c :: rest => c :: formatChars ts rest

/-- `get_canonical_photo_filename` from `collection.rs`. The EXIF reader
(`read_exif_data`, an I/O operation) is passed as an oracle from full path to
either an error message or the extracted metadata. -/
def get_canonical_photo_filename (filepath : String) (user_config : UserConfig)
    (read_exif_data : String → Except String PhotoMetaData) : Except String String :=
  match read_exif_data filepath with
  | .error e => .error e
  | .ok exif_data =>
    match exif_data.timestamp_local with
    | none => .error "EXIF timestamp not set."
    | some timestamp_local =>
      match extension filepath with
      | none => .error "Could not determine file extension."
      | some file_extension =>
        let file_extension := asciiLower file_extension
        match user_config.file_types.find? (fun ft => ft.2.contains file_extension) with
        | none => .error "File extension not defined in configuration."
        | some ft =>
          let cur_name := strReplace user_config.file_naming_scheme "%{type}" ft.1
          let cur_name := strReplace cur_name "%{fileextension}"
            (if file_extension == "jpeg" then "jpg" else file_extension)
          .ok (String.mk (formatChars timestamp_local cur_name.data))

/-- `get_photos_in_subdir` from `collection.rs`. -/
def get_photos_in_subdir (photos : List Photo) (subdir : String) (recursive : Bool) :
    List Photo :=
  photos.filter (fun photo =>
    if recursive then pathStartsWith subdir photo.relative_path
    else
      match pathParent photo.relative_path with
      | some d => d == subdir
      | none => false)

/-! ## Naming compliance checker (`src/checks.rs`) -/

/-- `check_photo_naming` from `checks.rs`. For each indexed photo the source
computes the canonical name; on success it compares it against the actual
file name and logs a warning on mismatch, but `found_misnamed_file` is left
unchanged in that branch (checks.rs lines 65-69) — only the error branch sets
the flag. -/
def check_photo_naming (root_dir : String) (index : Index)
    (read_exif_data : String → Except String PhotoMetaData) : Bool :=
  List.foldl
    (fun found_misnamed_file photo =>
      match get_canonical_photo_filename (pathJoin root_dir photo.filepath)
          index.user_config read_exif_data with
      | .ok _cfn => found_misnamed_file
      | .error _ => true)
    false index.photos

/-! ## Reconciliation engine (`update` in `src/commands.rs`, duplicated as
`update_index` in `src/main.rs`) -/

/-- The in-memory report the source emits through its `info!` log lines
(the spec's `ReconciliationResult`). -/
structure ReconciliationResult where
  added : List String
  deleted : List String
  renamed : List (String × String)
  deriving DecidableEq

/-- The loop state of `update`: the entries accumulated in `index.photos`,
the `deleted_photos` pool, and the report accumulated so far. -/
structure UpdateState where
  photos : List IndexEntry
  pool : List IndexEntry
  renamed : List (String × String)
  added : List String
  deriving DecidableEq

/-- Model of `Vec::swap_remove i`: the element at `i` is replaced by the last
element and the vector shrinks by one. -/
def swapRemove (l : List IndexEntry) (i : Nat) : List IndexEntry :=
  (l.set i (l.getLastD ⟨"", "", ""⟩)).dropLast

/-- The pool lookup of `update`: `deleted_photos.iter().position(|p| p.filehash
== hash)` followed by `swap_remove`. Returns the matched entry and the
remaining pool. -/
def poolMatch (pool : List IndexEntry) (h : String) : Option (IndexEntry × List IndexEntry) :=
  match List.findIdx? (fun p => p.filehash == h) pool with
  | none => none
  | some i =>
    match pool[i]? with
    | none => none
    | some e => some (e, swapRemove pool i)

/-- The `for added_photo in added_photos_paths` loop of `update`, threading
the loop state through the enumeration of the new paths. -/
def processAdded (root_dir : String) (hash : String → String) :
    List String → UpdateState → UpdateState
  | [], st => st
  | added_photo :: rest, st =>
    match poolMatch st.pool (hash (pathJoin root_dir added_photo)) with
    | some (renamed_photo, pool') =>
      processAdded root_dir hash rest
        { photos := st.photos ++ [{ renamed_photo with filepath := added_photo }]
          pool := pool'
          renamed := st.renamed ++ [(renamed_photo.filepath, added_photo)]
          added := st.added }
    | none =>
      processAdded root_dir hash rest
        { photos := st.photos ++
            [⟨added_photo, fileName added_photo, hash (pathJoin root_dir added_photo)⟩]
          pool := st.pool
          renamed := st.renamed
          added := st.added ++ [added_photo] }

/-- `update` from `commands.rs` (`update_index` in `main.rs` is the same code).
`added_order` is the order in which the `HashSet` difference
`photos_set.difference(&index_set)` happens to be enumerated; `hash` is the
`calc_photo_hash` oracle, keyed by the `root_dir`-joined path exactly as in
the source. Returns the updated index, the changed flag, and the report. -/
def update (root_dir : String) (index : Index) (photos : List Photo)
    (hash : String → String) (added_order : List String) :
    Index × Bool × ReconciliationResult :=
  let live_paths := photos.map Photo.relative_path
  let st := processAdded root_dir hash added_order
    ⟨index.photos.filter (fun p => live_paths.contains p.filepath),
     index.photos.filter (fun p => !(live_paths.contains p.filepath)),
     [], []⟩
  (⟨index.user_config, st.photos⟩,
   (!added_order.isEmpty || !st.pool.isEmpty),
   ⟨st.added, st.pool.map IndexEntry.filepath, st.renamed⟩)

/-- `update_index` from `main.rs` is the same function. -/
def update_index (root_dir : String) (index : Index) (photos : List Photo)
    (hash : String → String) (added_order : List String) :
    Index × Bool × ReconciliationResult :=
  update root_dir index photos hash added_order

/-- `added_order` is a valid enumeration of the `HashSet` difference
`photos_set.difference(&index_set)`: duplicate-free, and containing exactly
the live paths that are not in the index. -/
def isNewOrder (index : Index) (photos : List Photo) (order : List String) : Prop :=
  order.Nodup ∧
  (∀ p ∈ order, p ∈ photos.map Photo.relative_path ∧
    p ∉ index.photos.map IndexEntry.filepath) ∧
  (∀ p ∈ photos.map Photo.relative_path,
    p ∉ index.photos.map IndexEntry.filepath → p ∈ order)

instance (index : Index) (photos : List Photo) (order : List String) :
    Decidable (isNewOrder index photos order) := by
  unfold isNewOrder; infer_instance

/-! ## Rename command (`rename` in `src/commands.rs`, `rename_photos` in
`src/main.rs`)

The filesystem is modelled as an association list from existing full paths to
file contents, so that an overwrite (the old content at the target being
replaced) is observable. -/

/-- Model of POSIX `fs::rename`: fails when the source does not exist,
otherwise moves the content, silently replacing any file at the target. -/
def fsRename (fs : List (String × String)) (oldPath newPath : String) :
    Except String (List (String × String)) :=
  match fs.find? (fun e => e.1 == oldPath) with
  | none => .error "rename failed: source does not exist"
  | some e => .ok ((fs.filter (fun x => x.1 != oldPath && x.1 != newPath)) ++ [(newPath, e.2)])

/-- Whether a path exists in the modelled filesystem (`Path::exists`). -/
def fsExists (fs : List (String × String)) (p : String) : Bool :=
  fs.any (fun e => e.1 == p)

/-- The per-file loop of `rename` from `commands.rs`, threading the filesystem
and the renamed-photo counter. A canonical-name failure logs a warning and
continues; a missing file-name component aborts via `?`; a missing parent is
an `expect` panic, modelled as an error; an already-existing target logs an
error and `continue`s without touching the filesystem. -/
def renameLoop (root_dir : String) (user_config : UserConfig)
    (read_exif_data : String → Except String PhotoMetaData) (dry_run : Bool) :
    List String → List (String × String) → Nat →
    Except String (List (String × String) × Nat)
  | [], fs, count => .ok (fs, count)
  | filepath :: rest, fs, count =>
    match get_canonical_photo_filename (pathJoin root_dir filepath) user_config
        read_exif_data with
    | .error _ => renameLoop root_dir user_config read_exif_data dry_run rest fs count
    | .ok canonical_name =>
      match fileNameOpt filepath with
      | none => .error "Could not file component of photo path!"
      | some cur_name =>
        if cur_name == canonical_name then
          renameLoop root_dir user_config read_exif_data dry_run rest fs count
        else if dry_run then
          renameLoop root_dir user_config read_exif_data dry_run rest fs count
        else
          match pathParent filepath with
          | none => .error "Could not get directory component of photo path!"
          | some parent =>
            if fsExists fs (pathJoin (pathJoin root_dir parent) canonical_name) then
              renameLoop root_dir user_config read_exif_data dry_run rest fs count
            else
              match fsRename fs (pathJoin root_dir filepath)
                  (pathJoin (pathJoin root_dir parent) canonical_name) with
              | .error e => .error e
              | .ok fs' =>
                renameLoop root_dir user_config read_exif_data dry_run rest fs' (count + 1)

/-- `rename` from `commands.rs` (lines 142-204), including the
"refuse to overwrite already existing file" guard at lines 185-191. -/
def rename (root_dir subdir : String) (index : Index) (photos : List Photo)
    (recursive dry_run : Bool)
    (read_exif_data : String → Except String PhotoMetaData)
    (fs : List (String × String)) : Except String (List (String × String) × Nat) :=
  renameLoop root_dir index.user_config read_exif_data dry_run
    ((get_photos_in_subdir photos subdir recursive).map Photo.relative_path) fs 0

/-- The per-file loop of `rename_photos` from `main.rs` (lines 177-209): the
same logic as `renameLoop` except that there is no target-exists check before
`fs::rename`. -/
def renamePhotosLoop (root_dir : String) (user_config : UserConfig)
    (read_exif_data : String → Except String PhotoMetaData) (dry_run : Bool) :
    List String → List (String × String) → Nat →
    Except String (List (String × String) × Nat)
  | [], fs, count => .ok (fs, count)
  | filepath :: rest, fs, count =>
    match get_canonical_photo_filename (pathJoin root_dir filepath) user_config
        read_exif_data with
    | .error _ => renamePhotosLoop root_dir user_config read_exif_data dry_run rest fs count
    | .ok canonical_name =>
      match fileNameOpt filepath with
      | none => .error "Could not file component of photo path!"
      | some cur_name =>
        if cur_name == canonical_name then
          renamePhotosLoop root_dir user_config read_exif_data dry_run rest fs count
        else if dry_run then
          renamePhotosLoop root_dir user_config read_exif_data dry_run rest fs count
        else
          match pathParent filepath with
          | none => .error "Could not get directory component of photo path!"
          | some parent =>
            match fsRename fs (pathJoin root_dir filepath)
                (pathJoin (pathJoin root_dir parent) canonical_name) with
            | .error e => .error e
            | .ok fs' =>
              renamePhotosLoop root_dir user_config read_exif_data dry_run rest fs' (count + 1)

/-- `rename_photos` from `main.rs` (lines 161-212); its inline photo filter is
the same expression as `get_photos_in_subdir`. -/
def rename_photos (root_dir subdir : String) (index : Index) (photos : List Photo)
    (recursive dry_run : Bool)
    (read_exif_data : String → Except String PhotoMetaData)
    (fs : List (String × String)) : Except String (List (String × String) × Nat) :=
  renamePhotosLoop root_dir index.user_config read_exif_data dry_run
    ((get_photos_in_subdir photos subdir recursive).map Photo.relative_path) fs 0

/-! ## Lemmas about the reconciliation loop -/

/-- `processAdded` only appends to the accumulated entry list. -/
theorem processAdded_photos_append (root_dir : String) (hash : String → String)
    (order : List String) (st : UpdateState) :
    ∃ t, (processAdded root_dir hash order st).photos = st.photos ++ t := by
  induction order generalizing st with
  | nil => exact ⟨[], by simp [processAdded]⟩
  | cons p rest ih =>
    simp only [processAdded]
    cases hm : poolMatch st.pool (hash (pathJoin root_dir p)) with
    | none =>
      obtain ⟨t, ht⟩ := ih _
      exact ⟨_, by rw [ht, List.append_assoc]⟩
    | some pr =>
      obtain ⟨e, pool'⟩ := pr
      obtain ⟨t, ht⟩ := ih _
      exact ⟨_, by rw [ht, List.append_assoc]⟩

/-- Entries already accumulated survive the loop over the new paths. -/
theorem mem_processAdded_photos (root_dir : String) (hash : String → String)
    (order : List String) (st : UpdateState) (e : IndexEntry) (he : e ∈ st.photos) :
    e ∈ (processAdded root_dir hash order st).photos := by
  obtain ⟨t, ht⟩ := processAdded_photos_append root_dir hash order st
  rw [ht]
  exact List.mem_append_left _ he

/-- The loop appends exactly one entry per processed new path, carrying that
path, so the final path list is the initial one extended by the processed
order. -/
theorem processAdded_photos_paths (root_dir : String) (hash : String → String)
    (order : List String) (st : UpdateState) :
    (processAdded root_dir hash order st).photos.map IndexEntry.filepath =
      st.photos.map IndexEntry.filepath ++ order := by
  induction order generalizing st with
  | nil => simp [processAdded]
  | cons p rest ih =>
    simp only [processAdded]
    cases hm : poolMatch st.pool (hash (pathJoin root_dir p)) with
    | none => rw [ih]; simp
    | some pr =>
      obtain ⟨e, pool'⟩ := pr
      rw [ih]; simp

/-- The paths of the index produced by `update`: the retained entries'
paths followed by the processed new paths. -/
theorem update_photos_paths (root_dir : String) (index : Index) (photos : List Photo)
    (hash : String → String) (order : List String) :
    (update root_dir index photos hash order).1.photos.map IndexEntry.filepath =
      (index.photos.filter (fun p =>
        (photos.map Photo.relative_path).contains p.filepath)).map IndexEntry.filepath
      ++ order :=
  processAdded_photos_paths root_dir hash order _

/-- With an empty new-path enumeration, `update` just filters the index down
to the still-live entries and reports the pooled entries as deleted. -/
theorem update_nil_order (root_dir : String) (index : Index) (photos : List Photo)
    (hash : String → String) :
    update root_dir index photos hash [] =
      (⟨index.user_config,
        index.photos.filter (fun p =>
          (photos.map Photo.relative_path).contains p.filepath)⟩,
       !(index.photos.filter (fun p =>
          !((photos.map Photo.relative_path).contains p.filepath))).isEmpty,
       ⟨[], (index.photos.filter (fun p =>
          !((photos.map Photo.relative_path).contains p.filepath))).map IndexEntry.filepath,
        []⟩) := rfl

/-! ## Claims -/

/-- Claim C1: for an index containing exactly the entry `{path := "a.jpg",
hash := h}` and a live photo list containing exactly `"b.jpg"` whose computed
content hash is the same `h`, reconciliation classifies the change as a
rename: the updated index holds exactly one entry with path `"b.jpg"` and the
original `orig_filename` and `filehash`, the change flag is set, and the
report records the rename with no additions and no deletions. -/
theorem rename_detection (root_dir : String) (uc : UserConfig) (orig h : String)
    (hash : String → String) (hh : hash (pathJoin root_dir "b.jpg") = h) :
    update root_dir ⟨uc, [⟨"a.jpg", orig, h⟩]⟩ [⟨"b.jpg"⟩] hash ["b.jpg"] =
      (⟨uc, [⟨"b.jpg", orig, h⟩]⟩, true, ⟨[], [], [("a.jpg", "b.jpg")]⟩) := by
  simp [update, processAdded, poolMatch, swapRemove, hh]

/-- Witness for C1 at a concrete index, live list and hash oracle. -/
theorem rename_detection_witness :
    update "r" ⟨⟨"s", []⟩, [⟨"a.jpg", "a.jpg", "H"⟩]⟩ [⟨"b.jpg"⟩] (fun _ => "H") ["b.jpg"] =
      (⟨⟨"s", []⟩, [⟨"b.jpg", "a.jpg", "H"⟩]⟩, true, ⟨[], [], [("a.jpg", "b.jpg")]⟩) :=
  rename_detection "r" ⟨"s", []⟩ "a.jpg" "H" (fun _ => "H") rfl

/-- Claim C3: the changed flag returned by `update` is true exactly when some
indexed path is missing from the live set or some live path is missing from
the index; in particular a pure rename still reports a change. -/
theorem changed_flag_iff (root_dir : String) (index : Index) (photos : List Photo)
    (hash : String → String) (order : List String)
    (hord : isNewOrder index photos order) :
    (update root_dir index photos hash order).2.1 = true ↔
      ((∃ e ∈ index.photos, e.filepath ∉ photos.map Photo.relative_path) ∨
       (∃ p ∈ photos.map Photo.relative_path,
        p ∉ index.photos.map IndexEntry.filepath)) := by
  cases order with
  | nil =>
    have hnonew : ¬ ∃ p ∈ photos.map Photo.relative_path,
        p ∉ index.photos.map IndexEntry.filepath := by
      rintro ⟨p, hp, hpi⟩
      exact absurd (hord.2.2 p hp hpi) (List.not_mem_nil p)
    have hch : (update root_dir index photos hash []).2.1 =
        !(index.photos.filter (fun p =>
          !((photos.map Photo.relative_path).contains p.filepath))).isEmpty := rfl
    have key : index.photos.filter (fun p =>
        !((photos.map Photo.relative_path).contains p.filepath)) ≠ [] ↔
        ∃ e ∈ index.photos, e.filepath ∉ photos.map Photo.relative_path := by
      constructor
      · intro hne
        obtain ⟨e, he⟩ := List.exists_mem_of_ne_nil _ hne
        have hm := List.mem_filter.mp he
        refine ⟨e, hm.1, fun hmem => ?_⟩
        have hc : (photos.map Photo.relative_path).contains e.filepath = true :=
          List.elem_iff.mpr hmem
        rw [hc] at hm
        exact Bool.false_ne_true hm.2
      · rintro ⟨e, he, hnl⟩
        have hc : (photos.map Photo.relative_path).contains e.filepath = false := by
          cases hc : (photos.map Photo.relative_path).contains e.filepath with
          | false => rfl
          | true => exact absurd (List.elem_iff.mp hc) hnl
        have hmemf : e ∈ index.photos.filter (fun p =>
            !((photos.map Photo.relative_path).contains p.filepath)) :=
          List.mem_filter.mpr ⟨he, by rw [hc]; rfl⟩
        intro hnil
        rw [hnil] at hmemf
        exact List.not_mem_nil e hmemf
    have hbool : (!(index.photos.filter (fun p =>
        !((photos.map Photo.relative_path).contains p.filepath))).isEmpty) = true ↔
        index.photos.filter (fun p =>
          !((photos.map Photo.relative_path).contains p.filepath)) ≠ [] := by
      cases hF : index.photos.filter (fun p =>
          !((photos.map Photo.relative_path).contains p.filepath)) with
      | nil => simp
      | cons a t => simp
    rw [hch, hbool, key]
    exact (or_iff_left hnonew).symm
  | cons p rest =>
    constructor
    · intro _
      right
      have := hord.2.1 p (List.mem_cons_self p rest)
      exact ⟨p, this.1, this.2⟩
    · intro _
      rfl

/-- Witness for C3: a pure rename (one missing, one new path, matching hash)
yields a change. -/
theorem changed_flag_iff_witness :
    (update "r" ⟨⟨"s", []⟩, [⟨"a.jpg", "a.jpg", "H"⟩]⟩ [⟨"b.jpg"⟩] (fun _ => "H")
      ["b.jpg"]).2.1 = true :=
  (changed_flag_iff "r" ⟨⟨"s", []⟩, [⟨"a.jpg", "a.jpg", "H"⟩]⟩ [⟨"b.jpg"⟩] (fun _ => "H")
    ["b.jpg"] (by decide)).mpr
    (Or.inr ⟨"b.jpg", by decide, by decide⟩)

/-- Claim C9: if the input index has pairwise-distinct entry paths and the
enumeration of new paths is a valid `HashSet`-difference enumeration, the
index produced by `update` again has pairwise-distinct entry paths. -/
theorem update_paths_nodup (root_dir : String) (index : Index) (photos : List Photo)
    (hash : String → String) (order : List String)
    (hnd : (index.photos.map IndexEntry.filepath).Nodup)
    (hord : isNewOrder index photos order) :
    ((update root_dir index photos hash order).1.photos.map IndexEntry.filepath).Nodup := by
  rw [update_photos_paths]
  refine List.Nodup.append ?_ hord.1 ?_
  · exact List.Nodup.sublist
      (List.Sublist.map IndexEntry.filepath (List.filter_sublist index.photos)) hnd
  · intro a ha hao
    have hidx : a ∈ index.photos.map IndexEntry.filepath := by
      obtain ⟨e, he, rfl⟩ := List.mem_map.mp ha
      exact List.mem_map_of_mem IndexEntry.filepath (List.mem_of_mem_filter he)
    exact (hord.2.1 a hao).2 hidx

/-- Witness for C9 at a concrete reconciliation run. -/
theorem update_paths_nodup_witness :
    ((update "r" ⟨⟨"s", []⟩, [⟨"a.jpg", "a.jpg", "H"⟩, ⟨"c.jpg", "c.jpg", "K"⟩]⟩
      [⟨"c.jpg"⟩, ⟨"b.jpg"⟩] (fun _ => "H")
      ["b.jpg"]).1.photos.map IndexEntry.filepath).Nodup :=
  update_paths_nodup "r" ⟨⟨"s", []⟩, [⟨"a.jpg", "a.jpg", "H"⟩, ⟨"c.jpg", "c.jpg", "K"⟩]⟩
    [⟨"c.jpg"⟩, ⟨"b.jpg"⟩] (fun _ => "H") ["b.jpg"] (by decide) (by decide)

/-- Claim C10: `update` only touches the photo list — the `user_config` of the
returned index is that of the input — and every entry whose path is also live
is carried over unchanged (same `filepath`, `orig_filename` and `filehash`). -/
theorem update_frame (root_dir : String) (index : Index) (photos : List Photo)
    (hash : String → String) (order : List String) :
    (update root_dir index photos hash order).1.user_config = index.user_config ∧
    ∀ e ∈ index.photos, e.filepath ∈ photos.map Photo.relative_path →
      e ∈ (update root_dir index photos hash order).1.photos := by
  constructor
  · rfl
  · intro e he hlive
    have hretained : e ∈ index.photos.filter (fun p =>
        (photos.map Photo.relative_path).contains p.filepath) :=
      List.mem_filter.mpr ⟨he, List.elem_iff.mpr hlive⟩
    exact mem_processAdded_photos root_dir hash order _ e hretained

/-- Witness for C10: a retained entry survives unchanged and the naming
configuration is untouched. -/
theorem update_frame_witness :
    (update "r" ⟨⟨"s", [("IMG", ["jpg"])]⟩, [⟨"c.jpg", "c.jpg", "K"⟩]⟩ [⟨"c.jpg"⟩, ⟨"b.jpg"⟩]
      (fun _ => "H") ["b.jpg"]).1.user_config = ⟨"s", [("IMG", ["jpg"])]⟩ ∧
    (⟨"c.jpg", "c.jpg", "K"⟩ : IndexEntry) ∈
      (update "r" ⟨⟨"s", [("IMG", ["jpg"])]⟩, [⟨"c.jpg", "c.jpg", "K"⟩]⟩ [⟨"c.jpg"⟩, ⟨"b.jpg"⟩]
        (fun _ => "H") ["b.jpg"]).1.photos :=
  ⟨(update_frame "r" ⟨⟨"s", [("IMG", ["jpg"])]⟩, [⟨"c.jpg", "c.jpg", "K"⟩]⟩
      [⟨"c.jpg"⟩, ⟨"b.jpg"⟩] (fun _ => "H") ["b.jpg"]).1,
   (update_frame "r" ⟨⟨"s", [("IMG", ["jpg"])]⟩, [⟨"c.jpg", "c.jpg", "K"⟩]⟩
      [⟨"c.jpg"⟩, ⟨"b.jpg"⟩] (fun _ => "H") ["b.jpg"]).2
     ⟨"c.jpg", "c.jpg", "K"⟩ (by decide) (by decide)⟩

/-- Claim C2: reconciliation is idempotent — running `update` a second time on
the index produced by a first run, against the same live photo list, returns a
false change flag, the unchanged index, and an empty report (for any valid
enumeration orders of the two `HashSet` differences). -/
theorem reconcile_idempotent (root_dir : String) (index : Index) (photos : List Photo)
    (hash : String → String) (order order' : List String)
    (h1 : isNewOrder index photos order)
    (h2 : isNewOrder (update root_dir index photos hash order).1 photos order') :
    update root_dir (update root_dir index photos hash order).1 photos hash order' =
      ((update root_dir index photos hash order).1, false, ⟨[], [], []⟩) := by
  have hpaths := update_photos_paths root_dir index photos hash order
  -- every path of the updated index is a live path
  have hmem : ∀ q ∈ (update root_dir index photos hash order).1.photos.map
      IndexEntry.filepath, q ∈ photos.map Photo.relative_path := by
    intro q hq
    rw [hpaths] at hq
    rcases List.mem_append.mp hq with hq | hq
    · obtain ⟨e, he, rfl⟩ := List.mem_map.mp hq
      have hc := (List.mem_filter.mp he).2
      exact List.elem_iff.mp hc
    · exact (h1.2.1 q hq).1
  -- every live path appears in the updated index
  have hcover : ∀ q ∈ photos.map Photo.relative_path,
      q ∈ (update root_dir index photos hash order).1.photos.map IndexEntry.filepath := by
    intro q hq
    rw [hpaths]
    by_cases hqi : q ∈ index.photos.map IndexEntry.filepath
    · apply List.mem_append_left
      obtain ⟨e, he, rfl⟩ := List.mem_map.mp hqi
      exact List.mem_map_of_mem IndexEntry.filepath
        (List.mem_filter.mpr ⟨he, List.elem_iff.mpr hq⟩)
    · exact List.mem_append_right _ (h1.2.2 q hq hqi)
  -- hence the second difference is empty, so its enumeration is empty
  have horder' : order' = [] := by
    cases horder' : order' with
    | nil => rfl
    | cons p t =>
      exfalso
      rw [horder'] at h2
      have hp := h2.2.1 p (List.mem_cons_self p t)
      exact hp.2 (hcover p hp.1)
  subst horder'
  -- with an empty new set the second run retains everything and pools nothing
  have hall : ∀ e ∈ (update root_dir index photos hash order).1.photos,
      ((photos.map Photo.relative_path).contains e.filepath) = true := by
    intro e he
    exact List.elem_iff.mpr (hmem _ (List.mem_map_of_mem IndexEntry.filepath he))
  have hret : (update root_dir index photos hash order).1.photos.filter (fun p =>
      (photos.map Photo.relative_path).contains p.filepath) =
      (update root_dir index photos hash order).1.photos :=
    List.filter_eq_self.mpr hall
  have hpool : (update root_dir index photos hash order).1.photos.filter (fun p =>
      !((photos.map Photo.relative_path).contains p.filepath)) = [] :=
    List.filter_eq_nil_iff.mpr (fun e he => by rw [hall e he]; simp)
  rw [update_nil_order, hret, hpool]
  rfl

/-- Witness for C2 at a concrete rename-only reconciliation (the second
difference enumeration is necessarily empty). -/
theorem reconcile_idempotent_witness :
    update "r" (update "r" ⟨⟨"s", []⟩, [⟨"a.jpg", "a.jpg", "H"⟩]⟩ [⟨"b.jpg"⟩] (fun _ => "H")
        ["b.jpg"]).1 [⟨"b.jpg"⟩] (fun _ => "H") [] =
      ((update "r" ⟨⟨"s", []⟩, [⟨"a.jpg", "a.jpg", "H"⟩]⟩ [⟨"b.jpg"⟩] (fun _ => "H")
        ["b.jpg"]).1, false, ⟨[], [], []⟩) :=
  reconcile_idempotent "r" ⟨⟨"s", []⟩, [⟨"a.jpg", "a.jpg", "H"⟩]⟩ [⟨"b.jpg"⟩] (fun _ => "H")
    ["b.jpg"] [] (by decide) (by decide)

/-- Claim C4 counterexample: with two indexed entries sharing one hash and two
new files carrying that same hash, two valid enumerations of the same new-path
set (the `HashSet` difference) produce different updated indexes and reports,
so `update` is not a deterministic function of the index and live list alone. -/
theorem update_order_dependent :
    isNewOrder ⟨⟨"s", []⟩, [⟨"p1", "p1", "H"⟩, ⟨"p2", "p2", "H"⟩]⟩ [⟨"q1"⟩, ⟨"q2"⟩]
      ["q1", "q2"] ∧
    isNewOrder ⟨⟨"s", []⟩, [⟨"p1", "p1", "H"⟩, ⟨"p2", "p2", "H"⟩]⟩ [⟨"q1"⟩, ⟨"q2"⟩]
      ["q2", "q1"] ∧
    update "." ⟨⟨"s", []⟩, [⟨"p1", "p1", "H"⟩, ⟨"p2", "p2", "H"⟩]⟩ [⟨"q1"⟩, ⟨"q2"⟩]
      (fun _ => "H") ["q1", "q2"] ≠
    update "." ⟨⟨"s", []⟩, [⟨"p1", "p1", "H"⟩, ⟨"p2", "p2", "H"⟩]⟩ [⟨"q1"⟩, ⟨"q2"⟩]
      (fun _ => "H") ["q2", "q1"] :=
  ⟨by decide, by decide, by decide⟩

/-- Claim C4 (amended): `update` is deterministic only once the enumeration
order of the new-path set is fixed; when several pooled entries share a new
file's hash, the rename binds to the first matching entry in the pool's order
— the index's original entry order — not to the lexicographically smallest
path (the paths `a`, `b` here are arbitrary, in particular `b` may sort
before `a`, yet `a` wins). -/
theorem rename_tiebreak_pool_order (root_dir : String) (uc : UserConfig)
    (a b p o1 o2 h : String) (hash : String → String)
    (hap : a ≠ p) (hbp : b ≠ p)
    (hh : hash (pathJoin root_dir p) = h) :
    update root_dir ⟨uc, [⟨a, o1, h⟩, ⟨b, o2, h⟩]⟩ [⟨p⟩] hash [p] =
      (⟨uc, [⟨p, o1, h⟩]⟩, true, ⟨[], [b], [(a, p)]⟩) := by
  simp [update, processAdded, poolMatch, swapRemove, hh, hap, hbp]

/-- Witness for the amended C4: the second pool entry's path sorts before the
first one's, yet the rename binds to the first. -/
theorem rename_tiebreak_pool_order_witness :
    update "r" ⟨⟨"s", []⟩, [⟨"z.jpg", "z.jpg", "H"⟩, ⟨"a.jpg", "a.jpg", "H"⟩]⟩ [⟨"b.jpg"⟩]
      (fun _ => "H") ["b.jpg"] =
      (⟨⟨"s", []⟩, [⟨"b.jpg", "z.jpg", "H"⟩]⟩, true,
       ⟨[], ["a.jpg"], [("z.jpg", "b.jpg")]⟩) :=
  rename_tiebreak_pool_order "r" ⟨"s", []⟩ "z.jpg" "a.jpg" "b.jpg" "z.jpg" "a.jpg" "H"
    (fun _ => "H") (by decide) (by decide) rfl

/-- Claim C7: with the default naming scheme, file-type mapping `IMG ↦ [jpg]`,
an extracted local timestamp 2022-05-07T12:32:10 and file extension `JPG`, the
canonical file name is exactly `20220507_123210_IMG.jpg` (extension
lower-cased, both placeholders substituted, date directives expanded). -/
theorem canonical_naming_roundtrip (filepath : String)
    (read_exif_data : String → Except String PhotoMetaData) (pm : PhotoMetaData)
    (hm : read_exif_data filepath = .ok pm)
    (ht : pm.timestamp_local = some ⟨2022, 5, 7, 12, 32, 10⟩)
    (he : extension filepath = some "JPG") :
    get_canonical_photo_filename filepath
      ⟨"%Y%m%d_%H%M%S_%{type}.%{fileextension}", [("IMG", ["jpg"])]⟩ read_exif_data =
      .ok "20220507_123210_IMG.jpg" := by
  simp only [get_canonical_photo_filename, hm, ht, he]
  rfl

/-- Witness for C7 at a concrete file and EXIF oracle. -/
theorem canonical_naming_roundtrip_witness :
    get_canonical_photo_filename "photo.JPG"
      ⟨"%Y%m%d_%H%M%S_%{type}.%{fileextension}", [("IMG", ["jpg"])]⟩
      (fun _ => .ok ⟨none, none, some ⟨2022, 5, 7, 12, 32, 10⟩⟩) =
      .ok "20220507_123210_IMG.jpg" :=
  canonical_naming_roundtrip "photo.JPG"
    (fun _ => .ok ⟨none, none, some ⟨2022, 5, 7, 12, 32, 10⟩⟩)
    ⟨none, none, some ⟨2022, 5, 7, 12, 32, 10⟩⟩ rfl rfl rfl

/-- Claim C8 counterexample: with the extension `jpg` configured under two
distinct type tags, `get_canonical_photo_filename` does not fail — it resolves
the ambiguity by using the first matching tag in the map's key order. -/
theorem ambiguous_extension_accepted :
    (List.filter (fun ft => ft.2.contains "jpg")
      ([("A", ["jpg"]), ("B", ["jpg"])] : List (String × List String))).length = 2 ∧
    get_canonical_photo_filename "x.jpg"
      ⟨"%Y%m%d_%H%M%S_%{type}.%{fileextension}", [("A", ["jpg"]), ("B", ["jpg"])]⟩
      (fun _ => .ok ⟨none, none, some ⟨2022, 5, 7, 12, 32, 10⟩⟩) =
      .ok "20220507_123210_A.jpg" :=
  ⟨rfl, rfl⟩

/-- Claim C8 (amended): once the EXIF read succeeds, a timestamp is present and
the path has an extension, `get_canonical_photo_filename` succeeds exactly when
the lower-cased extension appears in at least one configured type tag's list:
absence is a hard failure, but ambiguity is not — the first matching tag in
the map's key order is used. -/
theorem extension_lookup_ok_iff (filepath : String) (uc : UserConfig)
    (read_exif_data : String → Except String PhotoMetaData) (pm : PhotoMetaData)
    (ts : NaiveDateTime) (ext : String)
    (hm : read_exif_data filepath = .ok pm) (ht : pm.timestamp_local = some ts)
    (he : extension filepath = some ext) :
    ((∃ s, get_canonical_photo_filename filepath uc read_exif_data = .ok s) ↔
      ∃ ft ∈ uc.file_types, asciiLower ext ∈ ft.2) := by
  simp only [get_canonical_photo_filename, hm, ht, he]
  cases hfind : uc.file_types.find? (fun ft => ft.2.contains (asciiLower ext)) with
  | none =>
    simp only [hfind]
    constructor
    · rintro ⟨s, hs⟩
      exact Except.noConfusion hs
    · rintro ⟨ft, hft, hmem⟩
      have hpred : ft.2.contains (asciiLower ext) = true := List.elem_iff.mpr hmem
      exact absurd hpred (List.find?_eq_none.mp hfind ft hft)
  | some ft =>
    simp only [hfind]
    constructor
    · intro _
      have hpred := List.find?_some hfind
      exact ⟨ft, List.mem_of_find?_eq_some hfind, List.elem_iff.mp hpred⟩
    · intro _
      exact ⟨_, rfl⟩

/-- Witness for the amended C8 at a concrete configuration. -/
theorem extension_lookup_ok_iff_witness :
    ((∃ s, get_canonical_photo_filename "x.jpg"
        ⟨"%Y%m%d_%H%M%S_%{type}.%{fileextension}", [("IMG", ["jpg"])]⟩
        (fun _ => .ok ⟨none, none, some ⟨2022, 5, 7, 12, 32, 10⟩⟩) = .ok s) ↔
      ∃ ft ∈ ([("IMG", ["jpg"])] : List (String × List String)),
        asciiLower "jpg" ∈ ft.2) :=
  extension_lookup_ok_iff "x.jpg"
    ⟨"%Y%m%d_%H%M%S_%{type}.%{fileextension}", [("IMG", ["jpg"])]⟩
    (fun _ => .ok ⟨none, none, some ⟨2022, 5, 7, 12, 32, 10⟩⟩)
    ⟨none, none, some ⟨2022, 5, 7, 12, 32, 10⟩⟩ ⟨2022, 5, 7, 12, 32, 10⟩ "jpg"
    rfl rfl rfl

/-- Claim C5 (evaluation of the code at the failing input): for an indexed
photo `x.jpg` whose canonical name computes successfully to
`20220507_123210_IMG.jpg` — a genuine mismatch with its actual file name —
`check_photo_naming` still returns `false`, because the source only sets
`found_misnamed_file` in the metadata-error branch, never in the
successful-comparison branch. -/
theorem check_photo_naming_mismatch_unflagged :
    get_canonical_photo_filename (pathJoin "r" "x.jpg")
      ⟨"%Y%m%d_%H%M%S_%{type}.%{fileextension}", [("IMG", ["jpg"])]⟩
      (fun _ => .ok ⟨none, none, some ⟨2022, 5, 7, 12, 32, 10⟩⟩) =
      .ok "20220507_123210_IMG.jpg" ∧
    fileName "x.jpg" ≠ "20220507_123210_IMG.jpg" ∧
    check_photo_naming "r"
      ⟨⟨"%Y%m%d_%H%M%S_%{type}.%{fileextension}", [("IMG", ["jpg"])]⟩,
       [⟨"x.jpg", "x.jpg", "h1"⟩]⟩
      (fun _ => .ok ⟨none, none, some ⟨2022, 5, 7, 12, 32, 10⟩⟩) = false :=
  ⟨rfl, by decide, rfl⟩

/-- In the `commands.rs` rename loop, a photo whose canonical name differs from
its current name but whose target path is already occupied is skipped: the
filesystem and the counter are unchanged and processing continues with the
remaining photos. -/
theorem renameLoop_skips_existing_target (root_dir : String) (uc : UserConfig)
    (meta : String → Except String PhotoMetaData)
    (filepath canonical cur_name parent : String)
    (rest : List String) (fs : List (String × String)) (count : Nat)
    (hc : get_canonical_photo_filename (pathJoin root_dir filepath) uc meta = .ok canonical)
    (hf : fileNameOpt filepath = some cur_name) (hne : cur_name ≠ canonical)
    (hp : pathParent filepath = some parent)
    (hex : fsExists fs (pathJoin (pathJoin root_dir parent) canonical) = true) :
    renameLoop root_dir uc meta false (filepath :: rest) fs count =
      renameLoop root_dir uc meta false rest fs count := by
  simp [renameLoop, hc, hf, hp, hex, hne]

/-- Claim C6 (evaluation of the code at the failing input): on a filesystem
holding `r/a.jpg` (content `ca`) and its canonical target
`r/20220507_123210_IMG.jpg` (content `cb`), the `commands.rs` `rename` skips
the occupied target and leaves the filesystem untouched, while the `main.rs`
`rename_photos` — which lacks the target-exists guard — replaces the existing
target file's content. -/
theorem rename_overwrite_divergence :
    rename "r" "" ⟨⟨"%Y%m%d_%H%M%S_%{type}.%{fileextension}", [("IMG", ["jpg"])]⟩,
        [⟨"a.jpg", "a.jpg", "h"⟩]⟩
      [⟨"a.jpg"⟩] false false (fun _ => .ok ⟨none, none, some ⟨2022, 5, 7, 12, 32, 10⟩⟩)
      [("r/a.jpg", "ca"), ("r/20220507_123210_IMG.jpg", "cb")] =
      .ok ([("r/a.jpg", "ca"), ("r/20220507_123210_IMG.jpg", "cb")], 0) ∧
    rename_photos "r" "" ⟨⟨"%Y%m%d_%H%M%S_%{type}.%{fileextension}", [("IMG", ["jpg"])]⟩,
        [⟨"a.jpg", "a.jpg", "h"⟩]⟩
      [⟨"a.jpg"⟩] false false (fun _ => .ok ⟨none, none, some ⟨2022, 5, 7, 12, 32, 10⟩⟩)
      [("r/a.jpg", "ca"), ("r/20220507_123210_IMG.jpg", "cb")] =
      .ok ([("r/20220507_123210_IMG.jpg", "ca")], 1) :=
  ⟨rfl, rfl⟩

end PhotoOrganizer
